import Mathlib

/-!
Shallow embedding of a 4-digit 7-segment clock/voltmeter firmware
(`src/main.cpp`, mbed sketch) and proofs of its specified properties.

The firmware bit-bangs a 74HC595 shift register over three output lines
(data, clock, latch).  We model the side effects on those lines as a trace
of pin events; applying a trace to a pin state yields the final line
levels.  Machine integers are modelled as `Int` with C++ truncated
division (`Int.tdiv` / `Int.tmod`); `uint8_t` values are `Nat` below 256
with bitwise operations; the fallible C array indexing is modelled with
`Option`-returning lookup; float arithmetic in the voltage branch is
modelled over `ℚ`.
-/

namespace ClockFirmware

/-- Writes to the three output lines (`dataPin`, `clockPin`, `latchPin`)
plus the multiplexing settle delay `ThisThread::sleep_for`. -/
inductive PinEvent where
  | setData (b : Bool)
  | setClock (b : Bool)
  | setLatch (b : Bool)
  | sleepMs (n : Nat)
deriving DecidableEq, Repr

/-- Levels of the three output lines driving the shift register. -/
structure PinState where
  dataPin : Bool
  clockPin : Bool
  latchPin : Bool
deriving DecidableEq, Repr

/-- Effect of a single pin event on the line levels. -/
def applyEvent (s : PinState) : PinEvent → PinState
  | .setData b => { s with dataPin := b }
  | .setClock b => { s with clockPin := b }
  | .setLatch b => { s with latchPin := b }
  | .sleepMs _ => s

/-- Final line levels after a trace of pin events. -/
def applyEvents (s : PinState) (es : List PinEvent) : PinState :=
  es.foldl applyEvent s

/-- Sequence of values written to the data line, in order. -/
def dataWrites : List PinEvent → List Bool
  | [] => []
  | .setData b :: es => b :: dataWrites es
  | _ :: es => dataWrites es

/-- Sequence of values written to the clock line, in order. -/
def clockWrites : List PinEvent → List Bool
  | [] => []
  | .setClock b :: es => b :: clockWrites es
  | _ :: es => clockWrites es

/-- Sequence of values written to the latch line, in order. -/
def latchWrites : List PinEvent → List Bool
  | [] => []
  | .setLatch b :: es => b :: latchWrites es
  | _ :: es => latchWrites es

/-- Segment patterns for digits 0-9 on a common-anode display:
`static_cast<uint8_t>(~mask)` is complement within 8 bits. -/
def digitPattern : List Nat :=
  [0xFF ^^^ 0x3F, 0xFF ^^^ 0x06, 0xFF ^^^ 0x5B, 0xFF ^^^ 0x4F, 0xFF ^^^ 0x66,
   0xFF ^^^ 0x6D, 0xFF ^^^ 0x7D, 0xFF ^^^ 0x07, 0xFF ^^^ 0x7F, 0xFF ^^^ 0x6F]

/-- One-hot digit position selector bytes (`digitPos[4]`). -/
def digitPos : List Nat :=
  [0x01, 0x02, 0x04, 0x08]

/-- The time counters `volatile int seconds, minutes`. -/
structure TimeState where
  seconds : Int
  minutes : Int
deriving DecidableEq, Repr

/-- Both counters are initialised to zero at power-on. -/
def initialTime : TimeState := { seconds := 0, minutes := 0 }

/-- Ticker callback `updateTime`: `seconds++; if (seconds >= 60) { seconds = 0;
minutes++; if (minutes >= 100) minutes = 0; }`. -/
def updateTime (t : TimeState) : TimeState :=
  let s := t.seconds + 1
  if s ≥ 60 then
    let m := t.minutes + 1
    { seconds := 0, minutes := if m ≥ 100 then 0 else m }
  else
    { seconds := s, minutes := t.minutes }

/-- Reset-button action in the main loop: `seconds = minutes = 0`. -/
def resetTime (_ : TimeState) : TimeState :=
  { seconds := 0, minutes := 0 }

/-- Body of the loop `for (int i = 7; i >= 0; i--)` in `shiftOutMSBFirst`,
parameterised by how many bits remain: the `i + 1` case emits bit `i`
(`dataPin = (value & (1 << i)) ? 1 : 0`) and pulses the clock high then low. -/
def shiftOutLoop (value : Nat) : Nat → List PinEvent
  | 0 => []
  | i + 1 =>
    PinEvent.setData (value &&& (1 <<< i) != 0) ::
      PinEvent.setClock true :: PinEvent.setClock false :: shiftOutLoop value i

/-- Function `shiftOutMSBFirst`: emit the 8 bits of `value`, most significant
first, each followed by a clock pulse. -/
def shiftOutMSBFirst (value : Nat) : List PinEvent :=
  shiftOutLoop value 8

/-- Function `writeToShiftRegister`: lower the latch, shift out the segment
byte then the digit-select byte, raise the latch. -/
def writeToShiftRegister (segments digit : Nat) : List PinEvent :=
  PinEvent.setLatch false ::
    ((shiftOutMSBFirst segments ++ shiftOutMSBFirst digit) ++
      [PinEvent.setLatch true])

/-- C array indexing as a fallible lookup: defined (`some`) exactly when the
index is in bounds. -/
def cGet {α : Type} (l : List α) (i : Int) : Option α :=
  if h : 0 ≤ i ∧ i.toNat < l.length then some (l.get ⟨i.toNat, h.2⟩) else none

/-- Digit extraction in `displayNumber`: `{(number / 1000) % 10,
(number / 100) % 10, (number / 10) % 10, number % 10}` with C++ truncated
division and remainder. -/
def digitsOf (number : Int) : List Int :=
  [(number.tdiv 1000).tmod 10, (number.tdiv 100).tmod 10,
   (number.tdiv 10).tmod 10, number.tmod 10]

/-- Segment byte sent for table entry `p` at position `i`: bit 7 (the decimal
point, active low) is cleared via `segments &= ~0x80` exactly when
`showDecimalPoint && i == decimalPosition`. -/
def segmentByte (p : Nat) (i : Nat) (showDecimalPoint : Bool)
    (decimalPosition : Int) : Nat :=
  if showDecimalPoint && ((i : Int) == decimalPosition) then p &&& 0x7F else p

/-- One iteration of the display loop in `displayNumber`: look up the digit
at index `i`, its pattern and its position byte, and emit the two-byte
transfer followed by the 2 ms settle delay. -/
def displayDigitStep (digits : List Int) (showDecimalPoint : Bool)
    (decimalPosition : Int) (i : Nat) : Option (List PinEvent) := do
  let d ← cGet digits (i : Int)
  let p ← cGet digitPattern d
  let pos ← cGet digitPos (i : Int)
  return writeToShiftRegister (segmentByte p i showDecimalPoint decimalPosition) pos
    ++ [PinEvent.sleepMs 2]

/-- Function `displayNumber`: decompose `number` into 4 digits and drive the
four positions left to right. -/
def displayNumber (number : Int) (showDecimalPoint : Bool)
    (decimalPosition : Int) : Option (List PinEvent) := do
  let digits := digitsOf number
  let e0 ← displayDigitStep digits showDecimalPoint decimalPosition 0
  let e1 ← displayDigitStep digits showDecimalPoint decimalPosition 1
  let e2 ← displayDigitStep digits showDecimalPoint decimalPosition 2
  let e3 ← displayDigitStep digits showDecimalPoint decimalPosition 3
  return e0 ++ e1 ++ e2 ++ e3

/-- Recomposition of a digit list as a decimal numeral (most significant
digit first). -/
def recompose (ds : List Int) : Int :=
  ds.foldl (fun acc d => acc * 10 + d) 0

/-- Invariant on the time counters stated by the spec:
seconds ∈ [0,60), minutes ∈ [0,100). -/
def timeInv (t : TimeState) : Prop :=
  0 ≤ t.seconds ∧ t.seconds < 60 ∧ 0 ≤ t.minutes ∧ t.minutes < 100

/-- Packed time value displayed by the main loop:
`int timeValue = minutes * 100 + seconds`. -/
def timeValue (t : TimeState) : Int :=
  t.minutes * 100 + t.seconds

/-- Time-display branch of the main loop:
`displayNumber(timeValue, true, 1)`. -/
def timeBranch (t : TimeState) : Option (List PinEvent) :=
  displayNumber (timeValue t) true 1

/-- C truncation-toward-zero of a rational to an integer, as performed by a
C `(int)` cast. -/
def cIntOfRat (q : ℚ) : Int :=
  q.num.tdiv (q.den : Int)

/-- Voltage computation `potentiometer.read_u16() / 65535.0f * 3.3f` for a
raw 16-bit sample; the `float` arithmetic is modelled exactly over `ℚ`. -/
def voltageOf (raw : Nat) : ℚ :=
  (raw : ℚ) / 65535 * (33 / 10)

/-- Conversion `int voltageValue = (int)(voltage * 1000)`. -/
def voltageValue (raw : Nat) : Int :=
  cIntOfRat (voltageOf raw * 1000)

/-- Voltage-display branch of the main loop:
`displayNumber(voltageValue, true, 0)`. -/
def voltageBranch (raw : Nat) : Option (List PinEvent) :=
  displayNumber (voltageValue raw) true 0

/-- Bits of a byte from bit 7 down to bit 0 (MSB-first order). -/
def msbBits (value : Nat) : List Bool :=
  [value.testBit 7, value.testBit 6, value.testBit 5, value.testBit 4,
   value.testBit 3, value.testBit 2, value.testBit 1, value.testBit 0]

end ClockFirmware

namespace ClockFirmware

/-! Helper lemmas about the pin-event trace extractors. -/

lemma dataWrites_nil : dataWrites [] = [] := rfl

lemma clockWrites_nil : clockWrites [] = [] := rfl

lemma latchWrites_nil : latchWrites [] = [] := rfl

lemma dataWrites_setLatch_cons (b : Bool) (es : List PinEvent) :
    dataWrites (PinEvent.setLatch b :: es) = dataWrites es := rfl

lemma clockWrites_setLatch_cons (b : Bool) (es : List PinEvent) :
    clockWrites (PinEvent.setLatch b :: es) = clockWrites es := rfl

lemma latchWrites_setLatch_cons (b : Bool) (es : List PinEvent) :
    latchWrites (PinEvent.setLatch b :: es) = b :: latchWrites es := rfl

lemma dataWrites_append (es fs : List PinEvent) :
    dataWrites (es ++ fs) = dataWrites es ++ dataWrites fs := by
  induction es with
  | nil => rfl
  | cons e es ih => cases e <;> simp [dataWrites, ih]

lemma clockWrites_append (es fs : List PinEvent) :
    clockWrites (es ++ fs) = clockWrites es ++ clockWrites fs := by
  induction es with
  | nil => rfl
  | cons e es ih => cases e <;> simp [clockWrites, ih]

lemma latchWrites_append (es fs : List PinEvent) :
    latchWrites (es ++ fs) = latchWrites es ++ latchWrites fs := by
  induction es with
  | nil => rfl
  | cons e es ih => cases e <;> simp [latchWrites, ih]

lemma bitExpr_eq_testBit (v i : Nat) : (v &&& (1 <<< i) != 0) = v.testBit i := by
  cases h : v.testBit i <;> simp [Nat.one_shiftLeft, Nat.and_two_pow, h]

lemma dataWrites_shiftOut (v : Nat) :
    dataWrites (shiftOutMSBFirst v) = msbBits v := by
  show [v &&& (1 <<< 7) != 0, v &&& (1 <<< 6) != 0, v &&& (1 <<< 5) != 0,
        v &&& (1 <<< 4) != 0, v &&& (1 <<< 3) != 0, v &&& (1 <<< 2) != 0,
        v &&& (1 <<< 1) != 0, v &&& (1 <<< 0) != 0] = msbBits v
  simp only [bitExpr_eq_testBit, msbBits]

lemma clockWrites_shiftOut (v : Nat) :
    clockWrites (shiftOutMSBFirst v) =
      [true, false, true, false, true, false, true, false,
       true, false, true, false, true, false, true, false] := rfl

lemma latchWrites_shiftOut (v : Nat) :
    latchWrites (shiftOutMSBFirst v) = [] := rfl

lemma applyEvents_shiftOut (v : Nat) (s : PinState) :
    applyEvents s (shiftOutMSBFirst v) =
      { dataPin := v.testBit 0, clockPin := false, latchPin := s.latchPin } := by
  rw [show v.testBit 0 = (v &&& (1 <<< 0) != 0) from (bitExpr_eq_testBit v 0).symm]
  rfl

/-! Helper lemmas about digit extraction and C array indexing. -/

lemma digitsOf_nonneg_eq (m : Int) (hm : 0 ≤ m) :
    digitsOf m = [m / 1000 % 10, m / 100 % 10, m / 10 % 10, m % 10] := by
  unfold digitsOf
  rw [Int.tdiv_eq_ediv hm (by norm_num), Int.tdiv_eq_ediv hm (by norm_num),
    Int.tdiv_eq_ediv hm (by norm_num),
    Int.tmod_eq_emod (Int.ediv_nonneg hm (by norm_num)) (by norm_num),
    Int.tmod_eq_emod (Int.ediv_nonneg hm (by norm_num)) (by norm_num),
    Int.tmod_eq_emod (Int.ediv_nonneg hm (by norm_num)) (by norm_num),
    Int.tmod_eq_emod hm (by norm_num)]

lemma cGet_mem {α : Type} (l : List α) (i : Int) (x : α)
    (h : cGet l i = some x) : x ∈ l := by
  unfold cGet at h
  split at h
  · exact Option.some_inj.mp h ▸ List.get_mem _ _ _
  · exact absurd h (by simp)

lemma cGet_some_of_bounds {α : Type} (l : List α) (i : Int)
    (h0 : 0 ≤ i) (h : i.toNat < l.length) : ∃ x, cGet l i = some x :=
  ⟨l.get ⟨i.toNat, h⟩, dif_pos ⟨h0, h⟩⟩

lemma digitPattern_topBit :
    ∀ p ∈ digitPattern, p.testBit 7 = true ∧ (p &&& 0x7F).testBit 7 = false := by
  decide

lemma digitsOf_mem_bounds (n : Int) (h0 : 0 ≤ n) :
    ∀ d ∈ digitsOf n, 0 ≤ d ∧ d < 10 := by
  rw [digitsOf_nonneg_eq n h0]
  intro d hd
  simp only [List.mem_cons, List.not_mem_nil, or_false] at hd
  rcases hd with h | h | h | h <;> subst h <;> constructor <;> omega

lemma displayDigitStep_some (digits : List Int) (h4 : digits.length = 4)
    (hb : ∀ d ∈ digits, 0 ≤ d ∧ d < 10) (sdp : Bool) (dp : Int)
    (i : Nat) (hi : i < 4) :
    ∃ es, displayDigitStep digits sdp dp i = some es := by
  have hi' : ((i : Int)).toNat < digits.length := by omega
  have hig : cGet digits (i : Int) = some (digits.get ⟨(i : Int).toNat, hi'⟩) :=
    dif_pos ⟨Int.natCast_nonneg i, hi'⟩
  have hdb := hb (digits.get ⟨(i : Int).toNat, hi'⟩) (List.get_mem _ _ _)
  obtain ⟨p, hp⟩ := cGet_some_of_bounds digitPattern _ hdb.1
    (by simp only [digitPattern, List.length]; omega)
  obtain ⟨pos, hpos⟩ := cGet_some_of_bounds digitPos (i : Int)
    (Int.natCast_nonneg i) (by simp only [digitPos, List.length]; omega)
  refine ⟨writeToShiftRegister (segmentByte p i sdp dp) pos ++
    [PinEvent.sleepMs 2], ?_⟩
  simp only [List.get_eq_getElem, Int.toNat_natCast] at hp
  simp [displayDigitStep, hig, hp, hpos]

/-! Helper lemmas about the time base. -/

lemma updateTime_iterate_secs (m : Int) :
    ∀ k : Nat, k ≤ 59 → updateTime^[k] ⟨0, m⟩ = ⟨(k : Int), m⟩ := by
  intro k
  induction k with
  | zero => intro _; rfl
  | succ k ih =>
    intro hk
    rw [Function.iterate_succ_apply', ih (by omega)]
    have hklt : (k : Int) ≤ 58 := by exact_mod_cast Nat.le_of_succ_le_succ hk
    have h : ¬ ((k : Int) + 1 ≥ 60) := by omega
    simp only [updateTime, if_neg h]
    push_cast
    rfl

lemma updateTime_iterate_sixty (m : Int) :
    updateTime^[60] ⟨0, m⟩ = ⟨0, if m + 1 ≥ 100 then 0 else m + 1⟩ := by
  have h59 := updateTime_iterate_secs m 59 (le_refl _)
  have h60 : (60 : Nat) = 59 + 1 := rfl
  rw [h60, Function.iterate_succ_apply', h59]
  simp only [updateTime]
  norm_num

lemma updateTime_iterate_minutes :
    ∀ j : Nat, j ≤ 99 → updateTime^[60 * j] initialTime = ⟨0, (j : Int)⟩ := by
  intro j
  induction j with
  | zero => intro _; rfl
  | succ j ih =>
    intro hj
    have hsplit : 60 * (j + 1) = 60 + 60 * j := by ring
    rw [hsplit, Function.iterate_add_apply, ih (by omega), updateTime_iterate_sixty]
    have hjlt : (j : Int) ≤ 98 := by exact_mod_cast Nat.le_of_succ_le_succ hj
    have h : ¬ ((j : Int) + 1 ≥ 100) := by omega
    simp only [if_neg h]
    push_cast
    rfl

/-- Truncation toward zero of a nonnegative rational coincides with its floor. -/
lemma cIntOfRat_eq_floor (q : ℚ) (hq : 0 ≤ q) : cIntOfRat q = ⌊q⌋ := by
  unfold cIntOfRat
  rw [Int.tdiv_eq_ediv (Rat.num_nonneg.mpr hq) (Int.natCast_nonneg q.den)]
  exact Rat.floor_def.symm

end ClockFirmware

namespace ClockFirmware

/-- C1: for every integer n in [0, 9999], the 4-digit decomposition computed
by `displayNumber` — digits `(n/1000)%10`, `(n/100)%10`, `(n/10)%10`, `n%10` —
recomposes (`d0*1000 + d1*100 + d2*10 + d3`, here Horner-style via
`recompose`) to n exactly. -/
theorem digits_roundtrip (n : Int) (h0 : 0 ≤ n) (h1 : n ≤ 9999) :
    recompose (digitsOf n) = n := by
  rw [digitsOf_nonneg_eq n h0]
  simp only [recompose, List.foldl]
  omega

/-- Witness for C1 at n = 530. -/
theorem digits_roundtrip_witness :
    (0 : Int) ≤ 530 ∧ (530 : Int) ≤ 9999 ∧ recompose (digitsOf 530) = 530 :=
  ⟨by norm_num, by norm_num, digits_roundtrip 530 (by norm_num) (by norm_num)⟩

/-- C2: from (seconds=0, minutes=0), 60 ticks of `updateTime` yield
(seconds=0, minutes=1) and 6000 ticks yield (0, 0) again; moreover each single
invocation increments seconds, resets seconds to 0 and increments minutes when
seconds reaches 60, and resets minutes to 0 when minutes reaches 100. -/
theorem updateTime_tick_behaviour :
    updateTime^[60] initialTime = ⟨0, 1⟩ ∧
    updateTime^[6000] initialTime = ⟨0, 0⟩ ∧
    (∀ t : TimeState, t.seconds + 1 < 60 →
      updateTime t = ⟨t.seconds + 1, t.minutes⟩) ∧
    (∀ t : TimeState, 60 ≤ t.seconds + 1 → t.minutes + 1 < 100 →
      updateTime t = ⟨0, t.minutes + 1⟩) ∧
    (∀ t : TimeState, 60 ≤ t.seconds + 1 → 100 ≤ t.minutes + 1 →
      updateTime t = ⟨0, 0⟩) := by
  refine ⟨?_, ?_, ?_, ?_, ?_⟩
  · show updateTime^[60] (⟨0, 0⟩ : TimeState) = ⟨0, 1⟩
    rw [updateTime_iterate_sixty]
    norm_num
  · have hsplit : (6000 : Nat) = 60 + 60 * 99 := by norm_num
    rw [hsplit, Function.iterate_add_apply,
      updateTime_iterate_minutes 99 (by norm_num), updateTime_iterate_sixty]
    norm_num
  · intro t ht
    simp only [updateTime, if_neg (by omega : ¬ (t.seconds + 1 ≥ 60))]
  · intro t hs hm
    simp only [updateTime, if_pos (by omega : t.seconds + 1 ≥ 60),
      if_neg (by omega : ¬ (t.minutes + 1 ≥ 100))]
  · intro t hs hm
    simp only [updateTime, if_pos (by omega : t.seconds + 1 ≥ 60),
      if_pos (by omega : t.minutes + 1 ≥ 100)]

/-- Witness for C2: the three single-step cases at concrete states. -/
theorem updateTime_tick_behaviour_witness :
    updateTime ⟨0, 0⟩ = ⟨1, 0⟩ ∧
    updateTime ⟨59, 5⟩ = ⟨0, 6⟩ ∧
    updateTime ⟨59, 99⟩ = ⟨0, 0⟩ :=
  ⟨by
    have h := updateTime_tick_behaviour.2.2.1 ⟨0, 0⟩ (by norm_num)
    simpa using h,
   by
    have h := updateTime_tick_behaviour.2.2.2.1 ⟨59, 5⟩ (by norm_num) (by norm_num)
    simpa using h,
   updateTime_tick_behaviour.2.2.2.2 ⟨59, 99⟩ (by norm_num) (by norm_num)⟩

/-- C3: for every byte value, `shiftOutMSBFirst` writes the bits of the value
to the data line from bit 7 down to bit 0, pulses the clock high then low
exactly 8 times, and leaves the data line at the least significant bit and
the clock line low (latch untouched); for input 0b10110000 the data sequence
is 1,0,1,1,0,0,0,0. -/
theorem shiftOutMSBFirst_spec :
    (∀ value : Nat,
      dataWrites (shiftOutMSBFirst value) = msbBits value ∧
      clockWrites (shiftOutMSBFirst value) =
        [true, false, true, false, true, false, true, false,
         true, false, true, false, true, false, true, false] ∧
      (∀ s : PinState, applyEvents s (shiftOutMSBFirst value) =
        { dataPin := value.testBit 0, clockPin := false,
          latchPin := s.latchPin })) ∧
    dataWrites (shiftOutMSBFirst 0b10110000) =
      [true, false, true, true, false, false, false, false] := by
  refine ⟨fun value => ⟨dataWrites_shiftOut value, clockWrites_shiftOut value,
    fun s => applyEvents_shiftOut value s⟩, ?_⟩
  decide

/-- C4: for every digit value 0-9, the byte emitted at position `i` equals the
active-low table entry, with bit 7 (the decimal point) clear iff the
show-decimal-point flag is set and the position matches; at non-matching
positions the table entry is emitted unmodified with bit 7 set. -/
theorem segmentByte_spec (d : Nat) (hd : d < 10) (i : Nat) (sdp : Bool) (dp : Int) :
    ∃ p, cGet digitPattern (d : Int) = some p ∧
      ((segmentByte p i sdp dp).testBit 7 = false ↔ sdp = true ∧ (i : Int) = dp) ∧
      (sdp = true ∧ (i : Int) = dp → segmentByte p i sdp dp = p &&& 0x7F) ∧
      (¬(sdp = true ∧ (i : Int) = dp) →
        segmentByte p i sdp dp = p ∧ p.testBit 7 = true) := by
  obtain ⟨p, hp⟩ := cGet_some_of_bounds digitPattern (d : Int)
    (Int.natCast_nonneg d) (by simpa [digitPattern] using hd)
  have hbits := digitPattern_topBit p (cGet_mem _ _ _ hp)
  refine ⟨p, hp, ?_⟩
  by_cases hc : sdp = true ∧ (i : Int) = dp
  · have hcb : (sdp && ((i : Int) == dp)) = true := by simp [hc.1, hc.2]
    refine ⟨?_, fun _ => ?_, fun hn => absurd hc hn⟩
    · simp [segmentByte, hcb, hbits.2, hc]
    · simp [segmentByte, hcb]
  · have hcb : (sdp && ((i : Int) == dp)) = false := by
      cases hs : sdp
      · simp
      · have hne : (i : Int) ≠ dp := fun h => hc ⟨hs, h⟩
        simp [hne]
    refine ⟨?_, fun h => absurd h hc, fun _ => ?_⟩
    · simp [segmentByte, hcb, hbits.1, hc]
    · simp [segmentByte, hcb, hbits.1]

/-- Witness for C4 at digit 5, position 1, flag set, decimal position 1. -/
theorem segmentByte_spec_witness :
    ∃ p, cGet digitPattern ((5 : Nat) : Int) = some p ∧
      ((segmentByte p 1 true 1).testBit 7 = false ↔ true = true ∧ ((1 : Nat) : Int) = 1) ∧
      (true = true ∧ ((1 : Nat) : Int) = 1 → segmentByte p 1 true 1 = p &&& 0x7F) ∧
      (¬(true = true ∧ ((1 : Nat) : Int) = 1) →
        segmentByte p 1 true 1 = p ∧ p.testBit 7 = true) :=
  segmentByte_spec 5 (by norm_num) 1 true 1

/-- C5: every `writeToShiftRegister` update lowers the latch first, raises it
last, writes the latch exactly twice in total (so it is never asserted between
the two bytes), transmits exactly the 8 MSB-first data bits of the segment
byte followed by those of the digit-select byte, and pulses the clock 16
times. -/
theorem writeToShiftRegister_spec (segments digit : Nat) :
    latchWrites (writeToShiftRegister segments digit) = [false, true] ∧
    (writeToShiftRegister segments digit).head? =
      some (PinEvent.setLatch false) ∧
    (writeToShiftRegister segments digit).getLast? =
      some (PinEvent.setLatch true) ∧
    dataWrites (writeToShiftRegister segments digit) =
      msbBits segments ++ msbBits digit ∧
    clockWrites (writeToShiftRegister segments digit) =
      [true, false, true, false, true, false, true, false,
       true, false, true, false, true, false, true, false,
       true, false, true, false, true, false, true, false,
       true, false, true, false, true, false, true, false] := by
  refine ⟨?_, rfl, ?_, ?_, ?_⟩
  · simp only [writeToShiftRegister, latchWrites_setLatch_cons,
      latchWrites_append, latchWrites_shiftOut, latchWrites_nil,
      List.nil_append, List.append_nil]
  · rw [writeToShiftRegister, ← List.cons_append]
    exact List.getLast?_concat _
  · simp only [writeToShiftRegister, dataWrites_setLatch_cons, dataWrites_append,
      dataWrites_shiftOut, dataWrites_nil, List.append_nil]
  · simp only [writeToShiftRegister, clockWrites_setLatch_cons,
      clockWrites_append, clockWrites_shiftOut, clockWrites_nil,
      List.append_nil]
    rfl

/-- C6: the invariant seconds ∈ [0,60) and minutes ∈ [0,100) holds initially,
is preserved by every `updateTime` tick, and is (re-)established by the
reset-button action. -/
theorem timeInv_preserved :
    timeInv initialTime ∧
    (∀ t : TimeState, timeInv t → timeInv (updateTime t)) ∧
    (∀ t : TimeState, timeInv (resetTime t)) := by
  refine ⟨?_, ?_, ?_⟩
  · dsimp only [timeInv, initialTime]
    omega
  · intro t ht
    obtain ⟨h1, h2, h3, h4⟩ := ht
    simp only [timeInv, updateTime]
    split_ifs <;> dsimp only <;> omega
  · intro t
    dsimp only [timeInv, resetTime]
    omega

/-- Witness for C6: the invariant after one tick from the initial state. -/
theorem timeInv_preserved_witness :
    timeInv (updateTime ⟨0, 0⟩) :=
  timeInv_preserved.2.1 ⟨0, 0⟩ (by unfold timeInv; decide)

/-- C7: for a raw analog sample of 32768, the computed voltage is within
0.001 of 1.65 V, the integer display value is 1650, and the voltage branch
invokes the display driver on 1650 with the decimal point at digit index 0. -/
theorem voltage_branch_spec :
    |voltageOf 32768 - 33 / 20| ≤ 1 / 1000 ∧
    voltageValue 32768 = 1650 ∧
    voltageBranch 32768 = displayNumber 1650 true 0 := by
  have hnn : (0 : ℚ) ≤ voltageOf 32768 * 1000 := by
    simp only [voltageOf]
    positivity
  have h2 : voltageValue 32768 = 1650 := by
    rw [voltageValue, cIntOfRat_eq_floor _ hnn,
      show voltageOf 32768 * 1000 = 7208960 / 4369 from by
        simp only [voltageOf]; norm_num,
      Int.floor_eq_iff]
    constructor <;> norm_num
  refine ⟨?_, h2, ?_⟩
  · rw [abs_le]
    constructor <;> · simp only [voltageOf]; norm_num
  · rw [voltageBranch, h2]

/-- C8: for every integer n > 9999, `displayNumber` shows exactly the digits
of n mod 10000 — out-of-range values silently alias via modulo-10 digit
extraction. -/
theorem displayNumber_alias (n : Int) (h : 9999 < n) (sdp : Bool) (dp : Int) :
    digitsOf n = digitsOf (n.tmod 10000) ∧
    displayNumber n sdp dp = displayNumber (n.tmod 10000) sdp dp := by
  have h0 : (0 : Int) ≤ n := by omega
  have e1 : n.tmod 10000 = n % 10000 := Int.tmod_eq_emod h0 (by norm_num)
  have hm0 : (0 : Int) ≤ n.tmod 10000 := Int.tmod_nonneg _ h0
  have hdig : digitsOf n = digitsOf (n.tmod 10000) := by
    rw [digitsOf_nonneg_eq n h0, digitsOf_nonneg_eq _ hm0, e1]
    simp only [List.cons.injEq, and_true]
    refine ⟨?_, ?_, ?_, ?_⟩ <;> omega
  refine ⟨hdig, ?_⟩
  simp only [displayNumber]
  rw [hdig]

/-- Witness for C8 at n = 12345. -/
theorem displayNumber_alias_witness :
    digitsOf 12345 = digitsOf ((12345 : Int).tmod 10000) ∧
    displayNumber 12345 true 1 = displayNumber ((12345 : Int).tmod 10000) true 1 :=
  displayNumber_alias 12345 (by norm_num) true 1

/-- C9: for every nonnegative n, each extracted digit lies in [0, 9], so every
lookup into the 10-entry pattern table is in bounds and `displayNumber`
returns `some` trace (the out-of-bounds branch of the embedded indexing is
unreachable). -/
theorem displayNumber_total (n : Int) (h0 : 0 ≤ n) (sdp : Bool) (dp : Int) :
    (displayNumber n sdp dp).isSome = true := by
  have hlen : (digitsOf n).length = 4 := by
    rw [digitsOf_nonneg_eq n h0]; rfl
  have hb := digitsOf_mem_bounds n h0
  obtain ⟨e0, he0⟩ := displayDigitStep_some _ hlen hb sdp dp 0 (by norm_num)
  obtain ⟨e1, he1⟩ := displayDigitStep_some _ hlen hb sdp dp 1 (by norm_num)
  obtain ⟨e2, he2⟩ := displayDigitStep_some _ hlen hb sdp dp 2 (by norm_num)
  obtain ⟨e3, he3⟩ := displayDigitStep_some _ hlen hb sdp dp 3 (by norm_num)
  simp [displayNumber, he0, he1, he2, he3]

/-- Witness for C9 at n = 0. -/
theorem displayNumber_total_witness :
    (displayNumber 0 true 1).isSome = true :=
  displayNumber_total 0 (by norm_num) true 1

/-- C10: under the counter invariant, the packed value minutes*100 + seconds
lies in [0, 9959], so the time display never triggers the modulo-10000
truncation of `displayNumber`. -/
theorem timeValue_no_truncation (t : TimeState) (h : timeInv t) :
    0 ≤ timeValue t ∧ timeValue t ≤ 9959 ∧
    (timeValue t).tmod 10000 = timeValue t ∧
    digitsOf (timeValue t) = digitsOf ((timeValue t).tmod 10000) := by
  obtain ⟨h1, h2, h3, h4⟩ := h
  have hv1 : 0 ≤ timeValue t := by unfold timeValue; omega
  have hv2 : timeValue t ≤ 9959 := by unfold timeValue; omega
  have hmod : (timeValue t).tmod 10000 = timeValue t := by
    rw [Int.tmod_eq_emod hv1 (by norm_num)]
    omega
  exact ⟨hv1, hv2, hmod, by rw [hmod]⟩

/-- Witness for C10 at the state 5 minutes, 30 seconds. -/
theorem timeValue_no_truncation_witness :
    0 ≤ timeValue ⟨30, 5⟩ ∧ timeValue ⟨30, 5⟩ ≤ 9959 ∧
    (timeValue ⟨30, 5⟩).tmod 10000 = timeValue ⟨30, 5⟩ ∧
    digitsOf (timeValue ⟨30, 5⟩) = digitsOf ((timeValue ⟨30, 5⟩).tmod 10000) :=
  timeValue_no_truncation ⟨30, 5⟩ (by unfold timeInv; decide)

end ClockFirmware
